import Mathlib

/-!
Verification of the `periodic-array` Rust crate (`src/lib.rs`).

The crate defines `PeriodicArray<T, N>`, a wrapper around a fixed-size
array `[T; N]` whose `Index`/`IndexMut` implementations wrap the index
via `index % N` before performing an unchecked access
(`get_unchecked` / `get_unchecked_mut`), while `Deref`/`DerefMut`
expose the raw inner array (whose own indexing is bounds-checked and
does not wrap).  `new`, `From::from` and the `p_arr!` macro all build
the struct directly from the supplied array with no transformation.

Embedding choices:
  * The inner array `[T; N]` is a `List T` together with a proof that
    its length is `N` (the Rust length is fixed at the type level).
  * Rust's `index % N` panics when `N = 0` (remainder by zero); both
    access paths therefore return `Option`, with `none` for that panic.
  * The `get_unchecked` / `get_unchecked_mut` calls are undefined
    behaviour out of bounds; they are modelled by a bounds-checked
    access whose failure branch yields `none`, so that in-bounds-ness
    (the unreachability of that branch) is a provable statement.
-/

namespace PeriodicArraySpec

/-- Embedding of the Rust struct `PeriodicArray<T, N>`: the field
`inner` is the array `[T; N]`, modelled as a list whose length is
pinned to `N`. -/
structure PeriodicArray (T : Type) (N : Nat) where
  inner : List T
  inner_len : inner.length = N

/-- Embedding of `PeriodicArray::new`, which wraps the supplied array
unchanged: `PeriodicArray { inner }`. -/
def PeriodicArray.new {T : Type} {N : Nat} (inner : List T)
    (h : inner.length = N) : PeriodicArray T N :=
  ⟨inner, h⟩

/-- Embedding of `<PeriodicArray as From<[T; N]>>::from`, which also
just wraps the supplied array: `PeriodicArray { inner }`. -/
def PeriodicArray.fromArr {T : Type} {N : Nat} (inner : List T)
    (h : inner.length = N) : PeriodicArray T N :=
  ⟨inner, h⟩

/-- Embedding of the `p_arr!` macro, which expands to
`PeriodicArray::new([elems...])`; its argument is the list of element
expressions supplied to the macro. -/
def pArr {T : Type} {N : Nat} (elems : List T)
    (h : elems.length = N) : PeriodicArray T N :=
  PeriodicArray.new elems h

/-- Embedding of `slice::get_unchecked` as used on the inner array: an
out-of-bounds call is undefined behaviour, modelled as `none`. -/
def getUnchecked {T : Type} (l : List T) (j : Nat) : Option T :=
  l[j]?

/-- Embedding of `<PeriodicArray as Index<usize>>::index`:
`unsafe { self.inner.get_unchecked(index % N) }`.  When `N = 0` the
Rust expression `index % N` panics with a remainder-by-zero error,
modelled as `none`. -/
def PeriodicArray.index {T : Type} {N : Nat} (pa : PeriodicArray T N)
    (i : Nat) : Option T :=
  if N = 0 then none
  else getUnchecked pa.inner (i % N)

/-- Embedding of `<PeriodicArray as IndexMut<usize>>::index_mut`
followed by writing `v` through the returned reference:
`unsafe { self.inner.get_unchecked_mut(index % N) } = v`.  The `N = 0`
branch is the remainder-by-zero panic; the final `none` branch is the
out-of-bounds undefined behaviour of `get_unchecked_mut`. -/
def PeriodicArray.indexMutSet {T : Type} {N : Nat}
    (pa : PeriodicArray T N) (i : Nat) (v : T) :
    Option (PeriodicArray T N) :=
  if N = 0 then none
  else if h : i % N < pa.inner.length then
    some ⟨pa.inner.set (i % N) v, by
      rw [List.length_set]; exact pa.inner_len⟩
  else none

/-- Embedding of `<PeriodicArray as Deref>::deref`, which returns a
reference to the inner array `[T; N]` unchanged. -/
def PeriodicArray.deref {T : Type} {N : Nat}
    (pa : PeriodicArray T N) : List T :=
  pa.inner

/-- Indexing the inner array through the `Deref` view with the native
array indexing, which is bounds-checked: `(*pa)[i]` panics (modelled
as `none`) when `i >= N`. -/
def PeriodicArray.derefGet {T : Type} {N : Nat}
    (pa : PeriodicArray T N) (i : Nat) : Option T :=
  pa.deref[i]?

/-- The array method `map` reached through the `Deref` view, as in the
crate's test `pa.map(|x| x * x)`: element-wise transformation of the
inner array, producing a plain `[U; N]`. -/
def PeriodicArray.mapArr {T U : Type} {N : Nat}
    (pa : PeriodicArray T N) (f : T → U) : List U :=
  pa.deref.map f

/-- The derived `PartialEq` on `PeriodicArray` compares the single
field `inner` (element by element in storage order). -/
def PeriodicArray.peq {T : Type} {N : Nat}
    (a b : PeriodicArray T N) : Prop :=
  a.inner = b.inner

/-- A concrete sample container, the spec's scenario `p_arr![1, 2, 3]`. -/
def samplePA : PeriodicArray Nat 3 :=
  pArr [1, 2, 3] rfl

/-- C1: for every container of length `N > 0` and every non-negative
index `i`, `get(i) = get(i mod N)`, and for every non-negative `k`,
`get(i + k*N) = get(i)`; moreover indexing is defined (returns a
value) for every non-negative index, including indices `≥ N`. -/
theorem index_periodic {T : Type} {N : Nat} (pa : PeriodicArray T N)
    (i k : Nat) (hN : 0 < N) :
    pa.index i = pa.index (i % N) ∧
    pa.index (i + k * N) = pa.index i ∧
    ∃ x, pa.index i = some x := by
  have hne : N ≠ 0 := Nat.pos_iff_ne_zero.mp hN
  have hlt : i % N < pa.inner.length := by
    rw [pa.inner_len]; exact Nat.mod_lt i hN
  refine ⟨?_, ?_, ?_⟩
  · simp [PeriodicArray.index, getUnchecked, hne, Nat.mod_mod]
  · simp [PeriodicArray.index, getUnchecked, hne,
      Nat.add_mul_mod_self_right]
  · exact ⟨pa.inner[i % N], by
      simp only [PeriodicArray.index, getUnchecked, hne, if_false]
      exact List.getElem?_eq_getElem hlt⟩

/-- Witness for C1 at the concrete container `p_arr![1, 2, 3]` with
index 4 and multiplier 2. -/
theorem index_periodic_witness :
    0 < 3 ∧
    (samplePA.index 4 = samplePA.index (4 % 3) ∧
     samplePA.index (4 + 2 * 3) = samplePA.index 4 ∧
     ∃ x, samplePA.index 4 = some x) :=
  ⟨by decide, index_periodic samplePA 4 2 (by decide)⟩

/-- C2: for every container of length `N > 0`, `set(i, v)` succeeds,
and on its result `get(j)` returns `v` whenever `i mod N = j mod N`,
while for every `j` with `i mod N ≠ j mod N` it returns the same value
as before the write; the result's contents differ from the original in
only the one slot `i mod N`. -/
theorem set_then_get {T : Type} {N : Nat} (pa : PeriodicArray T N)
    (i j : Nat) (v : T) (hN : 0 < N) :
    ∃ pa', pa.indexMutSet i v = some pa' ∧
      pa'.inner = pa.inner.set (i % N) v ∧
      (i % N = j % N → pa'.index j = some v) ∧
      (i % N ≠ j % N → pa'.index j = pa.index j) := by
  have hne : N ≠ 0 := Nat.pos_iff_ne_zero.mp hN
  have hlt : i % N < pa.inner.length := by
    rw [pa.inner_len]; exact Nat.mod_lt i hN
  refine ⟨⟨pa.inner.set (i % N) v, by
    rw [List.length_set]; exact pa.inner_len⟩, ?_, rfl, ?_, ?_⟩
  · simp [PeriodicArray.indexMutSet, hne, hlt]
  · intro hij
    simp only [PeriodicArray.index, getUnchecked, hne, if_false]
    rw [← hij]
    exact List.getElem?_set_eq_of_lt v hlt
  · intro hij
    simp only [PeriodicArray.index, getUnchecked, hne, if_false]
    exact List.getElem?_set_ne hij

/-- Witness for C2: the spec's scenario `set(4, 9)` on `[1, 2, 3]`,
read back at index 1 (which shares slot `4 mod 3 = 1`). -/
theorem set_then_get_witness :
    0 < 3 ∧
    ∃ pa', samplePA.indexMutSet 4 9 = some pa' ∧
      pa'.inner = samplePA.inner.set (4 % 3) 9 ∧
      (4 % 3 = 1 % 3 → pa'.index 1 = some 9) ∧
      (4 % 3 ≠ 1 % 3 → pa'.index 1 = samplePA.index 1) :=
  ⟨by decide, set_then_get samplePA 4 1 9 (by decide)⟩

/-- C3: for every sequence of `N` elements (`N > 0` implied by the
index being in range) used to construct a container via `new`, and
every `i < N`, `get(i)` on the fresh container returns exactly the
`i`-th supplied element. -/
theorem in_domain_identity {T : Type} {N : Nat} (l : List T)
    (h : l.length = N) (i : Nat) (hi : i < N) :
    (PeriodicArray.new l h).index i = some (l.get ⟨i, h ▸ hi⟩) := by
  have hne : N ≠ 0 := by omega
  simp only [PeriodicArray.index, PeriodicArray.new, getUnchecked,
    hne, if_false, Nat.mod_eq_of_lt hi]
  rw [List.getElem?_eq_getElem (h ▸ hi)]
  simp [List.get_eq_getElem]

/-- Witness for C3 at `new [1, 2, 3]`, index 1. -/
theorem in_domain_identity_witness :
    ([1, 2, 3] : List Nat).length = 3 ∧ 1 < 3 ∧
    (PeriodicArray.new ([1, 2, 3] : List Nat) rfl).index 1 =
      some (([1, 2, 3] : List Nat).get ⟨1, by decide⟩) :=
  ⟨rfl, by decide, in_domain_identity [1, 2, 3] rfl 1 (by decide)⟩

/-- C4: under the precondition `N > 0`, the computed position
`i mod N` lies in `[0, N)`, so both the unchecked read and the
unchecked write are always in bounds: neither access ever reaches its
failure branch and both return a value. -/
theorem unchecked_in_bounds {T : Type} {N : Nat}
    (pa : PeriodicArray T N) (i : Nat) (v : T) (hN : 0 < N) :
    i % N < N ∧
    (∃ x, pa.index i = some x) ∧
    (∃ pa', pa.indexMutSet i v = some pa') := by
  have hne : N ≠ 0 := Nat.pos_iff_ne_zero.mp hN
  have hlt : i % N < pa.inner.length := by
    rw [pa.inner_len]; exact Nat.mod_lt i hN
  refine ⟨Nat.mod_lt i hN, ⟨pa.inner[i % N], ?_⟩, ?_⟩
  · simp only [PeriodicArray.index, getUnchecked, hne, if_false]
    exact List.getElem?_eq_getElem hlt
  · exact ⟨⟨pa.inner.set (i % N) v, by
      rw [List.length_set]; exact pa.inner_len⟩, by
      simp [PeriodicArray.indexMutSet, hne, hlt]⟩

/-- Witness for C4 at `p_arr![1, 2, 3]`, index 7, value 0. -/
theorem unchecked_in_bounds_witness :
    0 < 3 ∧
    (7 % 3 < 3 ∧
     (∃ x, samplePA.index 7 = some x) ∧
     (∃ pa', samplePA.indexMutSet 7 0 = some pa')) :=
  ⟨by decide, unchecked_in_bounds samplePA 7 0 (by decide)⟩

/-- C5: for any `N` and any sequence of `N` elements, the macro form
`p_arr!`, the constructor `new` and the conversion `from` produce
equal containers (also equal under the derived element-wise
comparison), and `new` and `from` store the supplied elements
unchanged; all three are total functions, hence infallible. -/
theorem construction_equivalence {T : Type} {N : Nat} (l : List T)
    (h : l.length = N) :
    pArr l h = PeriodicArray.new l h ∧
    PeriodicArray.fromArr l h = PeriodicArray.new l h ∧
    (pArr l h).peq (PeriodicArray.new l h) ∧
    (PeriodicArray.fromArr l h).peq (PeriodicArray.new l h) ∧
    (PeriodicArray.new l h).inner = l ∧
    (PeriodicArray.fromArr l h).inner = l :=
  ⟨rfl, rfl, rfl, rfl, rfl, rfl⟩

/-- Witness for C5 at the sequence `[1, 2, 3]`. -/
theorem construction_equivalence_witness :
    ([1, 2, 3] : List Nat).length = 3 ∧
    (pArr ([1, 2, 3] : List Nat) rfl =
       PeriodicArray.new ([1, 2, 3] : List Nat) rfl ∧
     PeriodicArray.fromArr ([1, 2, 3] : List Nat) rfl =
       PeriodicArray.new ([1, 2, 3] : List Nat) rfl ∧
     (pArr ([1, 2, 3] : List Nat) rfl).peq
       (PeriodicArray.new ([1, 2, 3] : List Nat) rfl) ∧
     (PeriodicArray.fromArr ([1, 2, 3] : List Nat) rfl).peq
       (PeriodicArray.new ([1, 2, 3] : List Nat) rfl) ∧
     (PeriodicArray.new ([1, 2, 3] : List Nat) rfl).inner = [1, 2, 3] ∧
     (PeriodicArray.fromArr ([1, 2, 3] : List Nat) rfl).inner
       = [1, 2, 3]) :=
  ⟨rfl, construction_equivalence [1, 2, 3] rfl⟩

/-- C6: for every container of length `N > 0` (implied by the index
being valid), applying an element-wise transform `f` and then reading
a valid index `i` on the result yields `f` applied to the original
`get(i)`, and the result has length exactly `N`. -/
theorem map_then_read {T U : Type} {N : Nat} (pa : PeriodicArray T N)
    (f : T → U) (i : Nat) (hi : i < N) :
    (pa.mapArr f).length = N ∧
    (pa.mapArr f)[i]? = (pa.index i).map f := by
  have hne : N ≠ 0 := by omega
  constructor
  · simp [PeriodicArray.mapArr, PeriodicArray.deref, pa.inner_len]
  · simp [PeriodicArray.mapArr, PeriodicArray.deref,
      PeriodicArray.index, getUnchecked, hne, Nat.mod_eq_of_lt hi,
      List.getElem?_map]

/-- Witness for C6: the spec's elementwise-square scenario on
`[1, 2, 3]`, read at index 1. -/
theorem map_then_read_witness :
    1 < 3 ∧
    ((samplePA.mapArr (fun x => x * x)).length = 3 ∧
     (samplePA.mapArr (fun x => x * x))[1]? =
       (samplePA.index 1).map (fun x => x * x)) :=
  ⟨by decide, map_then_read samplePA (fun x => x * x) 1 (by decide)⟩

/-- C7: a full linear traversal of the underlying array visits exactly
`N` elements — the length is `N` for every container value, hence
regardless of the access history (periodic reads do not mutate, and
every successful write yields a container whose length is again `N`). -/
theorem length_invariant {T : Type} {N : Nat} (pa : PeriodicArray T N)
    (i : Nat) (v : T) :
    pa.deref.length = N ∧
    ∀ pa', pa.indexMutSet i v = some pa' → pa'.deref.length = N := by
  refine ⟨pa.inner_len, fun pa' _ => pa'.inner_len⟩

/-- Witness for C7 at `p_arr![1, 2, 3]` with the write `set(4, 9)`. -/
theorem length_invariant_witness :
    samplePA.deref.length = 3 ∧
    ∀ pa', samplePA.indexMutSet 4 9 = some pa' →
      pa'.deref.length = 3 :=
  length_invariant samplePA 4 9

/-- C8: the periodic read and the periodic write fail (hit the
remainder-by-zero panic) exactly when `N = 0`; for `N > 0` they always
return a value, and every other operation (`new`, `fromArr`, `pArr`,
`deref`, `mapArr`, the derived comparison) is a total function, so
`N = 0` modulo is the only failure mode. -/
theorem only_failure_is_mod_zero {T : Type} {N : Nat}
    (pa : PeriodicArray T N) (i : Nat) (v : T) :
    (pa.index i = none ↔ N = 0) ∧
    (pa.indexMutSet i v = none ↔ N = 0) := by
  constructor
  · constructor
    · intro hnone
      by_contra hne
      have hN : 0 < N := Nat.pos_of_ne_zero hne
      have hlt : i % N < pa.inner.length := by
        rw [pa.inner_len]; exact Nat.mod_lt i hN
      rw [PeriodicArray.index, if_neg hne, getUnchecked,
        List.getElem?_eq_getElem hlt] at hnone
      exact Option.noConfusion hnone
    · intro h0
      simp [PeriodicArray.index, h0]
  · constructor
    · intro hnone
      by_contra hne
      have hN : 0 < N := Nat.pos_of_ne_zero hne
      have hlt : i % N < pa.inner.length := by
        rw [pa.inner_len]; exact Nat.mod_lt i hN
      rw [PeriodicArray.indexMutSet, if_neg hne, dif_pos hlt] at hnone
      exact Option.noConfusion hnone
    · intro h0
      simp [PeriodicArray.indexMutSet, h0]

/-- C9: the delegated, non-periodic view obtained through `Deref` is
bounds-checked and does not wrap: for any index `i ≥ N`, reading `i`
through the view fails (out of bounds) instead of returning the
element at `i mod N`, while the periodic operator at the same index
wraps and succeeds whenever `N > 0`. -/
theorem deref_bounds_checked {T : Type} {N : Nat}
    (pa : PeriodicArray T N) (i : Nat) (hi : N ≤ i) :
    pa.derefGet i = none ∧
    (0 < N → pa.index i = pa.index (i % N)) ∧
    (0 < N → ∃ x, pa.index i = some x) := by
  refine ⟨?_, fun hN => ?_, fun hN => ?_⟩
  · rw [PeriodicArray.derefGet]
    exact List.getElem?_eq_none (by rw [PeriodicArray.deref, pa.inner_len]; exact hi)
  · have hne : N ≠ 0 := Nat.pos_iff_ne_zero.mp hN
    simp [PeriodicArray.index, getUnchecked, hne, Nat.mod_mod]
  · have hne : N ≠ 0 := Nat.pos_iff_ne_zero.mp hN
    have hlt : i % N < pa.inner.length := by
      rw [pa.inner_len]; exact Nat.mod_lt i hN
    exact ⟨pa.inner[i % N], by
      simp only [PeriodicArray.index, getUnchecked, hne, if_false]
      exact List.getElem?_eq_getElem hlt⟩

/-- Witness for C9 at `p_arr![1, 2, 3]`, index 4. -/
theorem deref_bounds_checked_witness :
    3 ≤ 4 ∧
    (samplePA.derefGet 4 = none ∧
     (0 < 3 → samplePA.index 4 = samplePA.index (4 % 3)) ∧
     (0 < 3 → ∃ x, samplePA.index 4 = some x)) :=
  ⟨by decide, deref_bounds_checked samplePA 4 (by decide)⟩

/-- C10: construction never enforces `N > 0`: `new`, `from` and the
empty literal form all accept the empty sequence and produce a
zero-length container (they are total functions), and on that
container every periodic read or write then hits the
remainder-by-zero failure. -/
theorem construction_accepts_zero {T : Type} (i : Nat) (v : T) :
    (PeriodicArray.new ([] : List T) rfl : PeriodicArray T 0).index i
      = none ∧
    (PeriodicArray.new ([] : List T) rfl :
      PeriodicArray T 0).indexMutSet i v = none ∧
    (PeriodicArray.fromArr ([] : List T) rfl : PeriodicArray T 0)
      = PeriodicArray.new ([] : List T) rfl ∧
    (pArr ([] : List T) rfl : PeriodicArray T 0)
      = PeriodicArray.new ([] : List T) rfl := by
  refine ⟨?_, ?_, rfl, rfl⟩
  · simp [PeriodicArray.index]
  · simp [PeriodicArray.indexMutSet]

end PeriodicArraySpec
